import Mathlib

/-!
Verification of the elf-utilities repository: a shallow embedding of its
64-bit ELF data model, parser and writer/layout engine, with theorems
settling the specification claims. Machine integers are modelled as Nat
with explicit reduction modulo two to the width where wrap-around matters.
Fallible or panicking Rust code is modelled with the RustResult type below.
-/

/-- Error values of parser/parse.rs (enum ReadELFError); decodeFailed stands
for the boxed bincode decode error that header deserialization propagates. -/
inductive ParseError where
  | notELF (file_path : String)
  | decodeFailed
deriving DecidableEq

/-- Outcome of running a piece of Rust code: a normal value, a tagged error
returned to the caller, or a process panic (index out of bounds, failed
unwrap, failed assert). -/
inductive RustResult (α : Type) where
  | ok (a : α)
  | error (e : ParseError)
  | panic
deriving DecidableEq

/-- Little-endian byte encoding of the low w bytes of v, as byte values. -/
def leBytes : Nat → Nat → List Nat
  | 0, _ => []
  | w + 1, v => (v % 256) :: leBytes w (v / 256)

/-- Little-endian value of w bytes of buf starting at off (missing bytes
read as zero; callers establish the needed bounds). -/
def leRead (buf : List Nat) : Nat → Nat → Nat
  | _, 0 => 0
  | off, w + 1 => buf.getD off 0 + 256 * leRead buf (off + 1) w

/-- ELF64CLASS from header/elf64.rs. -/
inductive ELF64CLASS where
  | CLASSNone
  | CLASS32
  | CLASS64
  | CLASSNUM
  | ANY (b : Nat)
deriving DecidableEq

/-- shift_position of ELF64CLASS: (byte as u128) << 88. -/
def ELF64CLASS.shift_position (byte : Nat) : Nat := (byte % 256) <<< 88

/-- to_identifier of ELF64CLASS from header/elf64.rs. -/
def ELF64CLASS.to_identifier : ELF64CLASS → Nat
  | .CLASSNone => ELF64CLASS.shift_position 0
  | .CLASS32 => ELF64CLASS.shift_position 1
  | .CLASS64 => ELF64CLASS.shift_position 2
  | .CLASSNUM => ELF64CLASS.shift_position 3
  | .ANY b => ELF64CLASS.shift_position b

/-- ELF64DATA from header/elf64.rs. -/
inductive ELF64DATA where
  | DATANONE
  | DATA2LSB
  | DATA2MSB
  | DATA2NUM
  | ANY (b : Nat)
deriving DecidableEq

/-- shift_position of ELF64DATA: (byte as u128) << 80. -/
def ELF64DATA.shift_position (byte : Nat) : Nat := (byte % 256) <<< 80

/-- to_identifier of ELF64DATA from header/elf64.rs. -/
def ELF64DATA.to_identifier : ELF64DATA → Nat
  | .DATANONE => ELF64DATA.shift_position 0
  | .DATA2LSB => ELF64DATA.shift_position 1
  | .DATA2MSB => ELF64DATA.shift_position 2
  | .DATA2NUM => ELF64DATA.shift_position 3
  | .ANY b => ELF64DATA.shift_position b

/-- ELF64VERSION from header/elf64.rs. -/
inductive ELF64VERSION where
  | VERSIONCURRENT
  | ANY (b : Nat)
deriving DecidableEq

/-- shift_position of ELF64VERSION: (byte as u128) << 72. -/
def ELF64VERSION.shift_position (byte : Nat) : Nat := (byte % 256) <<< 72

/-- to_identifier of ELF64VERSION from header/elf64.rs. -/
def ELF64VERSION.to_identifier : ELF64VERSION → Nat
  | .VERSIONCURRENT => ELF64VERSION.shift_position 1
  | .ANY b => ELF64VERSION.shift_position b

/-- Modelled from the spec: header/osabi.rs is not under src/. The spec puts
the OS-ABI identification sub-component in byte 7 of the identification
field, so its shift lane is 64, mirroring the class/data/version enums. -/
inductive ELF64OSABI where
  | NONE
  | ANY (b : Nat)
deriving DecidableEq

/-- Modelled from the spec: OS-ABI shift into its fixed byte lane. -/
def ELF64OSABI.shift_position (byte : Nat) : Nat := (byte % 256) <<< 64

/-- Modelled from the spec: canonical numeric encoding, with passthrough. -/
def ELF64OSABI.to_identifier : ELF64OSABI → Nat
  | .NONE => ELF64OSABI.shift_position 0
  | .ANY b => ELF64OSABI.shift_position b

/-- ELF_MAGIC_NUMBER from header/elf64.rs: (0x7f454c46) << (12 * 8). -/
def ELF_MAGIC_NUMBER : Nat := 0x7f454c46 <<< (12 * 8)

/-- Ehdr64 from header/elf64.rs. Field e_ident is a u128; the remaining
fields are u16/u32/u64 per the Rust field types. -/
structure Ehdr64 where
  e_ident : Nat
  e_type : Nat
  e_machine : Nat
  e_version : Nat
  e_entry : Nat
  e_phoff : Nat
  e_shoff : Nat
  e_flags : Nat
  e_ehsize : Nat
  e_phentsize : Nat
  e_phnum : Nat
  e_shentsize : Nat
  e_shnum : Nat
  e_shstrndx : Nat
deriving DecidableEq

/-- Ehdr64::new from header/elf64.rs: magic preset, all other fields zero. -/
def Ehdr64.new : Ehdr64 :=
  { e_ident := ELF_MAGIC_NUMBER
  , e_type := 0, e_machine := 0, e_version := 0, e_entry := 0
  , e_phoff := 0, e_shoff := 0, e_flags := 0, e_ehsize := 0
  , e_phentsize := 0, e_phnum := 0, e_shentsize := 0, e_shnum := 0
  , e_shstrndx := 0 }

/-- Ehdr64::get_identification. -/
def Ehdr64.get_identification (h : Ehdr64) : Nat := h.e_ident

/-- Ehdr64::set_class from header/elf64.rs: bitwise-OR of the identifier
into e_ident. -/
def Ehdr64.set_class (h : Ehdr64) (cls : ELF64CLASS) : Ehdr64 :=
  { h with e_ident := h.e_ident ||| cls.to_identifier }

/-- Ehdr64::set_data from header/elf64.rs. -/
def Ehdr64.set_data (h : Ehdr64) (data : ELF64DATA) : Ehdr64 :=
  { h with e_ident := h.e_ident ||| data.to_identifier }

/-- Ehdr64::set_version from header/elf64.rs. -/
def Ehdr64.set_version (h : Ehdr64) (version : ELF64VERSION) : Ehdr64 :=
  { h with e_ident := h.e_ident ||| version.to_identifier }

/-- Ehdr64::set_osabi from header/elf64.rs. -/
def Ehdr64.set_osabi (h : Ehdr64) (osabi : ELF64OSABI) : Ehdr64 :=
  { h with e_ident := h.e_ident ||| osabi.to_identifier }

/-- The class byte lane of the identification field: byte 4 of the wire
identification, bits 88..96 of the u128. -/
def Ehdr64.class_lane (h : Ehdr64) : Nat := (h.e_ident >>> 88) % 256

/-- check_elf_magic from parser/parse.rs. The initial assert_eq on the
buffer length panics when it fails; otherwise the four bytes are compared
with the fixed ELF signature and a NotELF error carrying the file path is
returned on mismatch. -/
def check_elf_magic (file_path : String) (buf : List Nat) : RustResult Unit :=
  if buf.length = 4 then
    if buf.getD 0 0 ≠ 0x7f ∨ buf.getD 1 0 ≠ 0x45 ∨ buf.getD 2 0 ≠ 0x4c ∨
        buf.getD 3 0 ≠ 0x46 then
      .error (.notELF file_path)
    else
      .ok ()
  else
    .panic

/-- C3: the claim says calling an identification setter twice leaves exactly
the second value in the byte lane. The code ORs without clearing the lane:
after set_class CLASS32 then set_class CLASS64 the class lane holds 3
(the OR of 1 and 2), not the 2 the claim requires. -/
theorem c3_set_class_twice_accumulates :
    ((Ehdr64.new.set_class ELF64CLASS.CLASS32).set_class
        ELF64CLASS.CLASS64).class_lane = 3 ∧
    ((Ehdr64.new.set_class ELF64CLASS.CLASS32).set_class
        ELF64CLASS.CLASS64).class_lane ≠ 2 := by
  constructor <;> decide

/-- C5: check_elf_magic accepts a 4-byte prefix exactly when it equals the
magic signature 0x7f 0x45 0x4c 0x46, and on every other 4-byte prefix
returns the NotELF error carrying the offending file path. -/
theorem c5_check_elf_magic_spec (file_path : String) (b0 b1 b2 b3 : Nat) :
    (check_elf_magic file_path [b0, b1, b2, b3] = .ok () ↔
      (b0 = 0x7f ∧ b1 = 0x45 ∧ b2 = 0x4c ∧ b3 = 0x46)) ∧
    (¬(b0 = 0x7f ∧ b1 = 0x45 ∧ b2 = 0x4c ∧ b3 = 0x46) →
      check_elf_magic file_path [b0, b1, b2, b3] =
        .error (.notELF file_path)) := by
  unfold check_elf_magic
  simp only [List.length_cons, List.length_nil, List.getD]
  constructor
  · by_cases h0 : b0 = 0x7f <;> by_cases h1 : b1 = 0x45 <;>
      by_cases h2 : b2 = 0x4c <;> by_cases h3 : b3 = 0x46 <;>
      simp [h0, h1, h2, h3]
  · intro hne
    by_cases h0 : b0 = 0x7f <;> by_cases h1 : b1 = 0x45 <;>
      by_cases h2 : b2 = 0x4c <;> by_cases h3 : b3 = 0x46 <;>
      simp [h0, h1, h2, h3] at hne ⊢

/-- Witness for C5: concrete rejection of an all-zero prefix. -/
theorem c5_witness :
    check_elf_magic "a.out" [0, 0, 0, 0] =
      RustResult.error (ParseError.notELF "a.out") :=
  (c5_check_elf_magic_spec "a.out" 0 0 0 0).2 (by decide)

/-- Modelled from the spec: section/section_type.rs is not under src/. The
content union is keyed by this type tag; the named tags carry the standard
ELF numeric encoding used by TYPE::from. -/
inductive SectionType where
  | Null
  | SymTab
  | Rela
  | Dynamic
  | NoBits
  | DynSym
  | Other (v : Nat)
deriving DecidableEq

/-- Modelled from the spec: TYPE::from on the raw sh_type word, standard
ELF values (SymTab 2, Rela 4, Dynamic 6, NoBits 8, DynSym 11). -/
def SectionType.fromWord (v : Nat) : SectionType :=
  if v = 0 then .Null
  else if v = 2 then .SymTab
  else if v = 4 then .Rela
  else if v = 6 then .Dynamic
  else if v = 8 then .NoBits
  else if v = 11 then .DynSym
  else .Other v

/-- Shdr64 from section/elf64.rs: sh_name and sh_type and sh_link and
sh_info are u32, the remaining fields u64. -/
structure Shdr64 where
  sh_name : Nat
  sh_type : Nat
  sh_flags : Nat
  sh_addr : Nat
  sh_offset : Nat
  sh_size : Nat
  sh_link : Nat
  sh_info : Nat
  sh_addralign : Nat
  sh_entsize : Nat
deriving DecidableEq

/-- Default for Shdr64 from section/elf64.rs: all fields zero. -/
def Shdr64.default : Shdr64 :=
  { sh_name := 0, sh_type := 0, sh_flags := 0, sh_addr := 0, sh_offset := 0
  , sh_size := 0, sh_link := 0, sh_info := 0, sh_addralign := 0
  , sh_entsize := 0 }

/-- Shdr64::size from section/elf64.rs: 0x40. -/
def Shdr64.size : Nat := 0x40

/-- Shdr64::get_type from section/elf64.rs: TYPE::from(self.sh_type). -/
def Shdr64.get_type (h : Shdr64) : SectionType := SectionType.fromWord h.sh_type

/-- Shdr64::set_type. -/
def Shdr64.set_name (h : Shdr64) (v : Nat) : Shdr64 := { h with sh_name := v }

/-- Accessor for the sh_offset field (get_offset in file/elf64.rs). -/
def Shdr64.get_offset (h : Shdr64) : Nat := h.sh_offset

/-- Setter for the sh_offset field (set_offset in file/elf64.rs). -/
def Shdr64.set_offset (h : Shdr64) (v : Nat) : Shdr64 :=
  { h with sh_offset := v }

/-- Accessor for the sh_size field (get_size in file/elf64.rs). -/
def Shdr64.get_size (h : Shdr64) : Nat := h.sh_size

/-- Shdr64::to_le_bytes from section/elf64.rs: bincode serializes the ten
fields in declaration order, fixed-width little endian, 0x40 bytes total
(the doctest checks the default header serializes to 0x40 zero bytes). -/
def Shdr64.to_le_bytes (h : Shdr64) : List Nat :=
  leBytes 4 h.sh_name ++ leBytes 4 h.sh_type ++ leBytes 8 h.sh_flags ++
  leBytes 8 h.sh_addr ++ leBytes 8 h.sh_offset ++ leBytes 8 h.sh_size ++
  leBytes 4 h.sh_link ++ leBytes 4 h.sh_info ++ leBytes 8 h.sh_addralign ++
  leBytes 8 h.sh_entsize

/-- Field decode of a section header at a byte offset, fixed-width little
endian in declaration order, the inverse of Shdr64.to_le_bytes. -/
def Shdr64.decodeAt (buf : List Nat) (s : Nat) : Shdr64 :=
  { sh_name := leRead buf s 4, sh_type := leRead buf (s + 4) 4
  , sh_flags := leRead buf (s + 8) 8, sh_addr := leRead buf (s + 16) 8
  , sh_offset := leRead buf (s + 24) 8, sh_size := leRead buf (s + 32) 8
  , sh_link := leRead buf (s + 40) 4, sh_info := leRead buf (s + 44) 4
  , sh_addralign := leRead buf (s + 48) 8, sh_entsize := leRead buf (s + 56) 8 }

/-- Shdr64::deserialize from section/elf64.rs: bincode on the slice
buf[start..]. The slice itself panics when start exceeds the buffer length;
bincode returns an error when fewer than 0x40 bytes remain. -/
def Shdr64.deserialize (buf : List Nat) (start : Nat) : RustResult Shdr64 :=
  if buf.length < start then .panic
  else if buf.length - start < Shdr64.size then .error .decodeFailed
  else .ok (Shdr64.decodeAt buf start)

/-- Modelled from the spec: symbol/elf64.rs is not under src/ (only the
symbol module re-exports are). A Symbol64 is a fixed-size 24-byte record:
name index, packed binding/visibility/type bitfields, section index
reference, value and size. -/
structure Symbol64 where
  st_name : Nat
  st_info : Nat
  st_other : Nat
  st_shndx : Nat
  st_value : Nat
  st_size : Nat
deriving DecidableEq

/-- Modelled from the spec: fixed-size little-endian encoding of a symbol
record (4 + 1 + 1 + 2 + 8 + 8 = 24 bytes). -/
def Symbol64.to_le_bytes (s : Symbol64) : List Nat :=
  leBytes 4 s.st_name ++ leBytes 1 s.st_info ++ leBytes 1 s.st_other ++
  leBytes 2 s.st_shndx ++ leBytes 8 s.st_value ++ leBytes 8 s.st_size

/-- Modelled from the spec: the relocation module is not under src/. A
Rela64 is a fixed-size 24-byte record: offset, packed symbol-index plus
relocation-type field, addend (the addend is kept as its u64
twos-complement image). -/
structure Rela64 where
  r_offset : Nat
  r_info : Nat
  r_addend : Nat
deriving DecidableEq

/-- Modelled from the spec: fixed-size little-endian encoding of a
relocation record (8 + 8 + 8 = 24 bytes). -/
def Rela64.to_le_bytes (r : Rela64) : List Nat :=
  leBytes 8 r.r_offset ++ leBytes 8 r.r_info ++ leBytes 8 r.r_addend

/-- Section64 from section/elf64.rs: a name, a header, and three optional
content fields of which the type tag selects one. -/
structure Section64 where
  name : String
  header : Shdr64
  bytes : Option (List Nat)
  symbols : Option (List Symbol64)
  rela_symbols : Option (List Rela64)
deriving DecidableEq

/-- Section64::new from section/elf64.rs: all three content fields empty. -/
def Section64.new (section_name : String) (shdr : Shdr64) : Section64 :=
  { name := section_name, header := shdr, bytes := none, symbols := none
  , rela_symbols := none }

/-- Section64::new_null_section from section/elf64.rs. -/
def Section64.new_null_section : Section64 :=
  { Section64.new "" Shdr64.default with bytes := some [] }

/-- Section64::to_le_bytes from section/elf64.rs. The unwraps on the
content options panic when the selected field is absent; the result is
none exactly when the Rust function panics. For a RELA section the typed
records are followed by the stored raw bytes when those are present. -/
def Section64.to_le_bytes (sct : Section64) : Option (List Nat) :=
  match sct.header.get_type with
  | .SymTab => sct.symbols.map (fun syms => (syms.map Symbol64.to_le_bytes).flatten)
  | .Rela =>
    sct.rela_symbols.map
      (fun rs => (rs.map Rela64.to_le_bytes).flatten ++ sct.bytes.getD [])
  | _ => sct.bytes

/-- The content-population precondition of Section64::to_le_bytes: the
content field selected by the type tag is populated. -/
def Section64.contentPopulated (sct : Section64) : Bool :=
  match sct.header.get_type with
  | .SymTab => sct.symbols.isSome
  | .Rela => sct.rela_symbols.isSome
  | _ => sct.bytes.isSome

/-- C9: under the content-population precondition every unwrap branch of
Section64::to_le_bytes is unreachable, so the function is panic-free: it
produces a byte vector. Without the precondition it panics, as the second
conjunct shows on a fresh symbol-table section whose symbols field is
absent. -/
theorem c9_to_le_bytes_total_under_precondition :
    (∀ sct : Section64, sct.contentPopulated = true →
      (Section64.to_le_bytes sct).isSome = true) ∧
    Section64.to_le_bytes
      (Section64.new "" { Shdr64.default with sh_type := 2 }) = none := by
  constructor
  · intro sct h
    unfold Section64.contentPopulated at h
    unfold Section64.to_le_bytes
    cases htype : sct.header.get_type <;> rw [htype] at h <;>
      simp_all [Option.isSome_map]
  · decide

/-- Witness for C9: a populated symbol-table section serializes without
panicking. -/
theorem c9_witness :
    (Section64.to_le_bytes
      { Section64.new "" { Shdr64.default with sh_type := 2 } with
          symbols := some [] }).isSome = true :=
  c9_to_le_bytes_total_under_precondition.1
    { Section64.new "" { Shdr64.default with sh_type := 2 } with
        symbols := some [] } (by decide)

/-- Modelled from the spec: the Ehdr64 accessor boilerplate used by the
writer (size, set_shentsize, set_shnum, set_shstrndx, set_ehsize, set_shoff,
get_shstrndx, get_shnum) is not under src/; per the spec the header size of
the 64-bit format is the fixed 64-byte layout and the setters are plain
field writes. -/
def Ehdr64.size : Nat := 64

/-- Modelled from the spec: plain field write of e_shentsize. -/
def Ehdr64.set_shentsize (h : Ehdr64) (v : Nat) : Ehdr64 :=
  { h with e_shentsize := v }

/-- Modelled from the spec: plain field write of e_shnum. -/
def Ehdr64.set_shnum (h : Ehdr64) (v : Nat) : Ehdr64 := { h with e_shnum := v }

/-- Modelled from the spec: plain field write of e_shstrndx. -/
def Ehdr64.set_shstrndx (h : Ehdr64) (v : Nat) : Ehdr64 :=
  { h with e_shstrndx := v }

/-- Modelled from the spec: plain field write of e_ehsize. -/
def Ehdr64.set_ehsize (h : Ehdr64) (v : Nat) : Ehdr64 := { h with e_ehsize := v }

/-- Modelled from the spec: plain field write of e_shoff. -/
def Ehdr64.set_shoff (h : Ehdr64) (v : Nat) : Ehdr64 := { h with e_shoff := v }

/-- Modelled from the spec: plain field read of e_shstrndx. -/
def Ehdr64.get_shstrndx (h : Ehdr64) : Nat := h.e_shstrndx

/-- Modelled from the spec: plain field read of e_shnum. -/
def Ehdr64.get_shnum (h : Ehdr64) : Nat := h.e_shnum

/-- Modelled from the spec: Ehdr64::to_le_bytes is not under src/; the
encoding is the bincode layout the repository test fixture pins down: the
fourteen fields in declaration order, fixed-width little endian, the u128
identification field as its sixteen little-endian bytes, 64 bytes total. -/
def Ehdr64.to_le_bytes (h : Ehdr64) : List Nat :=
  leBytes 16 h.e_ident ++ leBytes 2 h.e_type ++ leBytes 2 h.e_machine ++
  leBytes 4 h.e_version ++ leBytes 8 h.e_entry ++ leBytes 8 h.e_phoff ++
  leBytes 8 h.e_shoff ++ leBytes 4 h.e_flags ++ leBytes 2 h.e_ehsize ++
  leBytes 2 h.e_phentsize ++ leBytes 2 h.e_phnum ++ leBytes 2 h.e_shentsize ++
  leBytes 2 h.e_shnum ++ leBytes 2 h.e_shstrndx

/-- The raw byte payload of a section as file/elf64.rs reads it: that file
(an earlier commit of the crate) uses the bytes field as a plain byte
vector; with the optional field type of section/elf64.rs an absent payload
reads as empty. -/
def Section64.bytesList (sct : Section64) : List Nat := sct.bytes.getD []

/-- ELF64 from file/elf64.rs: one header and the ordered section sequence
(program headers are a commented-out TODO). -/
structure ELF64 where
  ehdr : Ehdr64
  sections : List Section64
deriving DecidableEq

/-- ELF64::new from file/elf64.rs. -/
def ELF64.new (elf_header : Ehdr64) : ELF64 :=
  { ehdr := elf_header, sections := [] }

/-- ELF64::section_number from file/elf64.rs. -/
def ELF64.section_number (elf : ELF64) : Nat := elf.sections.length

/-- ELF64::add_section from file/elf64.rs. -/
def ELF64.add_section (elf : ELF64) (sct : Section64) : ELF64 :=
  { elf with sections := elf.sections ++ [sct] }

/-- The loop body of ELF64::clean_sections_offset from file/elf64.rs: for
each section in order, sh_offset is assigned the OLD sh_offset PLUS the
running total (u64 wrap-around), and the total then grows by the sh_size
header field. -/
def cleanSectionsOffsetGo (total : Nat) : List Section64 → List Section64
  | [] => []
  | sct :: rest =>
    { sct with header :=
        sct.header.set_offset ((sct.header.get_offset + total) % 2 ^ 64) } ::
      cleanSectionsOffsetGo ((total + sct.header.get_size) % 2 ^ 64) rest

/-- ELF64::clean_sections_offset from file/elf64.rs. -/
def ELF64.clean_sections_offset (elf : ELF64) (base : Nat) : ELF64 :=
  { elf with sections := cleanSectionsOffsetGo base elf.sections }

/-- ELF64::sum_section_sizes from file/elf64.rs: fold of the payload byte
lengths over the sections starting from base (u64 wrap-around). -/
def ELF64.sum_section_sizes (elf : ELF64) (base : Nat) : Nat :=
  elf.sections.foldl (fun sum sct => (sum + sct.bytesList.length) % 2 ^ 64) base

/-- Rust slice splitn(n, is-zero) semantics, split at NUL bytes: at most n
pieces, the last piece being the unsplit remainder. splitNCore takes the
number of separators still allowed. -/
def splitNCore : List Nat → Nat → List (List Nat)
  | [], _ => [[]]
  | x :: xs, rem =>
    if rem = 0 then [x :: xs]
    else if x = 0 then [] :: splitNCore xs (rem - 1)
    else
      match splitNCore xs rem with
      | [] => [[x]]
      | p :: ps => (x :: p) :: ps

/-- Rust slice splitn(n, is-zero): zero pieces when n is zero. -/
def splitN (n : Nat) (l : List Nat) : List (List Nat) :=
  match n with
  | 0 => []
  | m + 1 => splitNCore l m

/-- Replace the element at an index by the image under f, identity when the
index is out of range (the call sites index in bounds, where Rust indexing
succeeds). -/
def modifyIdx (f : Section64 → Section64) : List Section64 → Nat → List Section64
  | [], _ => []
  | x :: xs, 0 => f x :: xs
  | x :: xs, n + 1 => x :: modifyIdx f xs n

/-- The enumerate loop of the section-name pass inside ELF64::condition from
file/elf64.rs: walking the splitn pieces with their indices, skipping index
zero and indices at or beyond shnum, assigning the running sh_name to the
section at the index (u32 wrap-around) and advancing it past the piece
prefix up to the first NUL plus its terminator. -/
def nameLoop (shnum : Nat) : Nat → Nat → List (List Nat) → List Section64 →
    List Section64
  | _, _, [], sections => sections
  | idx, sh_name, bb :: rest, sections =>
    if idx = 0 ∨ shnum ≤ idx then nameLoop shnum (idx + 1) sh_name rest sections
    else
      let b := bb.takeWhile (fun num => num ≠ 0)
      nameLoop shnum (idx + 1) ((sh_name + (b.length + 1)) % 2 ^ 32) rest
        (modifyIdx
          (fun sct => { sct with header := sct.header.set_name sh_name })
          sections idx)

/-- The section-name pass inside ELF64::condition from file/elf64.rs: split
the byte payload of the section at shstrndx into at most shnum - 1 pieces
at NUL bytes and assign name indices. Rust indexing at shstrndx panics out
of range; here an out-of-range shstrndx reads the empty default section,
and the theorems restrict to the in-range case. -/
def ELF64.set_section_names (elf : ELF64) : ELF64 :=
  let shstrndx := elf.ehdr.get_shstrndx
  let shnum := elf.ehdr.get_shnum
  let name_count := shnum - 1
  let pieces :=
    splitN name_count
      ((elf.sections.getD shstrndx (Section64.new "" Shdr64.default)).bytesList)
  { elf with sections := nameLoop shnum 0 1 pieces elf.sections }

/-- ELF64::condition from file/elf64.rs, in source order: write shentsize,
shnum and shstrndx (usize truncated to u16, then u16 wrap-around decrement
for shstrndx; for an empty section list the Rust decrement panics in debug
builds), write ehsize, compute and write shoff from the payload sizes,
re-base every section offset at the header size, then rebuild the section
name indices. -/
def ELF64.condition (elf : ELF64) : ELF64 :=
  let len := elf.sections.length
  let ehdr := elf.ehdr.set_shentsize Shdr64.size
  let ehdr := ehdr.set_shnum (len % 2 ^ 16)
  let ehdr := ehdr.set_shstrndx ((len % 2 ^ 16 + (2 ^ 16 - 1)) % 2 ^ 16)
  let ehdr := ehdr.set_ehsize Ehdr64.size
  let shoff := elf.sum_section_sizes Ehdr64.size
  let ehdr := ehdr.set_shoff shoff
  let elf := ELF64.clean_sections_offset { elf with ehdr := ehdr } Ehdr64.size
  elf.set_section_names

/-- ELF64::to_le_bytes from file/elf64.rs: start from the header binary,
append every section payload in order, then append every section header
binary in order. -/
def ELF64.to_le_bytes (elf : ELF64) : List Nat :=
  let file_binary : List Nat := []
  let file_binary := file_binary ++ elf.ehdr.to_le_bytes
  let file_binary :=
    elf.sections.foldl (fun fb sct => fb ++ sct.bytesList) file_binary
  elf.sections.foldl (fun fb sct => fb ++ sct.header.to_le_bytes) file_binary

/-- Concrete model for C1: an ELF64 holding just the null section. -/
def elfC1 : ELF64 :=
  { ehdr := Ehdr64.new, sections := [Section64.new_null_section] }

/-- C1: the claim (spec layout-idempotence) says serializing after each of
two successive condition calls gives identical bytes. It fails: the offset
pass adds the running total to the OLD offset instead of overwriting, so
the second call moves the section offset from 64 to 128 and the serialized
section header changes. -/
theorem c1_condition_twice_changes_serialization :
    ELF64.to_le_bytes (ELF64.condition (ELF64.condition elfC1)) ≠
      ELF64.to_le_bytes (ELF64.condition elfC1) := by
  decide

/-- Concrete model for C2: one section that already carries file offset 7
and has an empty payload. -/
def elfC2 : ELF64 :=
  { ehdr := Ehdr64.new
  , sections :=
      [{ Section64.new "" { Shdr64.default with sh_offset := 7 } with
          bytes := some [] }] }

/-- C2: the claim says condition overwrites each section offset with the
header size plus the payload sizes of the preceding sections — here 64.
The code instead ADDS that amount to the offset the section already
carried, yielding 7 + 64 = 71. -/
theorem c2_condition_adds_previous_offset :
    ((ELF64.condition elfC2).sections.getD 0
        (Section64.new "" Shdr64.default)).header.sh_offset = 71 ∧
    ((ELF64.condition elfC2).sections.getD 0
        (Section64.new "" Shdr64.default)).header.sh_offset ≠ 64 := by
  constructor <;> decide

/-- The per-section payload the claim for C7 describes: symbol-table and
relocation sections contribute the re-encoding of their typed records
(relocations followed by any stored trailing raw bytes); other sections
their stored bytes. Stated from the claim as a refinement target. -/
def Section64.claimPayload (sct : Section64) : List Nat :=
  match sct.header.get_type with
  | .SymTab => ((sct.symbols.getD []).map Symbol64.to_le_bytes).flatten
  | .Rela =>
    ((sct.rela_symbols.getD []).map Rela64.to_le_bytes).flatten ++
      sct.bytes.getD []
  | _ => sct.bytes.getD []

/-- Serialization as the claim for C7 states it: header bytes, then every
claim payload in order, then every section header in order. -/
def ELF64.serializeClaimed (elf : ELF64) : List Nat :=
  elf.ehdr.to_le_bytes ++
    (elf.sections.map Section64.claimPayload).flatten ++
    (elf.sections.map (fun sct => sct.header.to_le_bytes)).flatten

/-- Serialization as the amended claim states it: header bytes, then every
section payload as stored raw bytes in order, then every section header in
order — no typed re-encoding. -/
def ELF64.serializeRaw (elf : ELF64) : List Nat :=
  elf.ehdr.to_le_bytes ++
    (elf.sections.map Section64.bytesList).flatten ++
    (elf.sections.map (fun sct => sct.header.to_le_bytes)).flatten

/-- Concrete model for C7: a symbol-table section holding one typed symbol
record and an empty raw byte payload. -/
def elfC7 : ELF64 :=
  { ehdr := Ehdr64.new
  , sections :=
      [{ Section64.new "" { Shdr64.default with sh_type := 2 } with
          bytes := some []
        , symbols :=
            some [{ st_name := 0, st_info := 0, st_other := 0, st_shndx := 0
                  , st_value := 0, st_size := 0 }] }] }

/-- Counterexample for C7: on a symbol-table section ELF64::to_le_bytes
emits the stored raw bytes (empty here), not the 24-byte re-encoding of the
typed symbol record, so the claimed concatenation differs from the actual
serialized image. -/
theorem c7_counterexample :
    ELF64.to_le_bytes elfC7 ≠ ELF64.serializeClaimed elfC7 := by
  decide

/-- Folding append over a list equals the flattened map appended to the
seed. -/
theorem foldl_append_flatten {α : Type} (f : α → List Nat) :
    ∀ (l : List α) (init : List Nat),
      l.foldl (fun acc x => acc ++ f x) init = init ++ (l.map f).flatten := by
  intro l
  induction l with
  | nil => simp
  | cons x xs ih => intro init; simp [ih]

/-- C7 (amended): the serialized image is exactly header bytes, then every
section payload as stored raw bytes in order, then every section header in
order; the typed symbol and relocation records are not re-encoded by
ELF64::to_le_bytes. -/
theorem c7_serialize_raw_concatenation (elf : ELF64) :
    ELF64.to_le_bytes elf = ELF64.serializeRaw elf := by
  unfold ELF64.to_le_bytes ELF64.serializeRaw
  rw [foldl_append_flatten, foldl_append_flatten]
  simp

/-- The default section value used to state getD-based properties. -/
def dSect : Section64 := Section64.new "" Shdr64.default

/-- Two section headers agreeing on every field except possibly sh_name. -/
def shdrEqExceptName (h h2 : Shdr64) : Prop :=
  h2.sh_type = h.sh_type ∧ h2.sh_flags = h.sh_flags ∧ h2.sh_addr = h.sh_addr ∧
  h2.sh_offset = h.sh_offset ∧ h2.sh_size = h.sh_size ∧
  h2.sh_link = h.sh_link ∧ h2.sh_info = h.sh_info ∧
  h2.sh_addralign = h.sh_addralign ∧ h2.sh_entsize = h.sh_entsize

/-- Two sections agreeing everywhere except possibly the sh_name field of
the header. -/
def onlyNameChanged (s s2 : Section64) : Prop :=
  s2.name = s.name ∧ s2.bytes = s.bytes ∧ s2.symbols = s.symbols ∧
  s2.rela_symbols = s.rela_symbols ∧ shdrEqExceptName s.header s2.header

theorem onlyNameChanged_refl (s : Section64) : onlyNameChanged s s := by
  simp [onlyNameChanged, shdrEqExceptName]

theorem onlyNameChanged_trans {s t u : Section64}
    (h1 : onlyNameChanged s t) (h2 : onlyNameChanged t u) :
    onlyNameChanged s u := by
  unfold onlyNameChanged shdrEqExceptName at h1 h2 ⊢
  obtain ⟨a1, b1, c1, d1, e1⟩ := h1
  obtain ⟨a2, b2, c2, d2, e2⟩ := h2
  refine ⟨a2.trans a1, b2.trans b1, c2.trans c1, d2.trans d1, ?_⟩
  obtain ⟨t1, t2, t3, t4, t5, t6, t7, t8, t9⟩ := e1
  obtain ⟨u1, u2, u3, u4, u5, u6, u7, u8, u9⟩ := e2
  exact ⟨u1.trans t1, u2.trans t2, u3.trans t3, u4.trans t4, u5.trans t5,
    u6.trans t6, u7.trans t7, u8.trans t8, u9.trans t9⟩

theorem onlyNameChanged_set_name (s : Section64) (v : Nat) :
    onlyNameChanged s { s with header := s.header.set_name v } := by
  simp [onlyNameChanged, shdrEqExceptName, Shdr64.set_name]

theorem modifyIdx_length (f : Section64 → Section64) :
    ∀ (l : List Section64) (i : Nat), (modifyIdx f l i).length = l.length := by
  intro l
  induction l with
  | nil => intro i; rfl
  | cons x xs ih =>
    intro i
    cases i with
    | zero => rfl
    | succ n => simp [modifyIdx, ih]

theorem modifyIdx_getD (f : Section64 → Section64) :
    ∀ (l : List Section64) (i j : Nat) (d : Section64),
      (modifyIdx f l i).getD j d =
        if j = i ∧ j < l.length then f (l.getD j d) else l.getD j d := by
  intro l
  induction l with
  | nil => intro i j d; simp [modifyIdx]
  | cons x xs ih =>
    intro i j d
    cases i with
    | zero =>
      cases j with
      | zero => simp [modifyIdx]
      | succ m => simp [modifyIdx]
    | succ n =>
      cases j with
      | zero => simp [modifyIdx]
      | succ m =>
        simp only [modifyIdx, List.getD_cons_succ, ih, List.length_cons]
        have : (m = n ∧ m < xs.length) ↔ (m + 1 = n + 1 ∧ m + 1 < xs.length + 1) := by
          omega
        rw [if_congr this rfl rfl]

theorem nameLoop_length (shnum : Nat) :
    ∀ (ps : List (List Nat)) (idx nm : Nat) (l : List Section64),
      (nameLoop shnum idx nm ps l).length = l.length := by
  intro ps
  induction ps with
  | nil => intro idx nm l; rfl
  | cons bb rest ih =>
    intro idx nm l
    unfold nameLoop
    by_cases h : idx = 0 ∨ shnum ≤ idx
    · simp only [if_pos h, ih]
    · simp only [if_neg h, ih, modifyIdx_length]

theorem nameLoop_getD_frame (shnum : Nat) :
    ∀ (ps : List (List Nat)) (idx nm : Nat) (l : List Section64) (j : Nat)
      (d : Section64),
      (j = 0 ∨ j < idx ∨ idx + ps.length ≤ j ∨ shnum ≤ j) →
      (nameLoop shnum idx nm ps l).getD j d = l.getD j d := by
  intro ps
  induction ps with
  | nil => intro idx nm l j d _; rfl
  | cons bb rest ih =>
    intro idx nm l j d hj
    unfold nameLoop
    by_cases h : idx = 0 ∨ shnum ≤ idx
    · rw [if_pos h, ih]
      simp only [List.length_cons] at hj
      omega
    · rw [if_neg h, ih]
      · rw [modifyIdx_getD]
        have hne : ¬(j = idx ∧ j < l.length) := by
          simp only [List.length_cons] at hj
          omega
        rw [if_neg hne]
      · simp only [List.length_cons] at hj
        omega

theorem nameLoop_onlyName (shnum : Nat) :
    ∀ (ps : List (List Nat)) (idx nm : Nat) (l : List Section64) (j : Nat)
      (d : Section64),
      onlyNameChanged (l.getD j d) ((nameLoop shnum idx nm ps l).getD j d) := by
  intro ps
  induction ps with
  | nil => intro idx nm l j d; exact onlyNameChanged_refl _
  | cons bb rest ih =>
    intro idx nm l j d
    unfold nameLoop
    by_cases h : idx = 0 ∨ shnum ≤ idx
    · rw [if_pos h]; exact ih _ _ _ _ _
    · rw [if_neg h]
      refine onlyNameChanged_trans ?_ (ih _ _ _ _ _)
      rw [modifyIdx_getD]
      by_cases hcond : j = idx ∧ j < l.length
      · rw [if_pos hcond]; exact onlyNameChanged_set_name _ _
      · rw [if_neg hcond]; exact onlyNameChanged_refl _

theorem splitNCore_length :
    ∀ (l : List Nat) (rem : Nat), (splitNCore l rem).length ≤ rem + 1 := by
  intro l
  induction l with
  | nil => intro rem; simp [splitNCore]
  | cons x xs ih =>
    intro rem
    unfold splitNCore
    by_cases h0 : rem = 0
    · simp [h0]
    · rw [if_neg h0]
      by_cases hx : x = 0
      · rw [if_pos hx]
        have := ih (rem - 1)
        simp only [List.length_cons]
        omega
      · rw [if_neg hx]
        have := ih rem
        cases hres : splitNCore xs rem with
        | nil => simp
        | cons p pss =>
          rw [hres] at this
          simpa using this

theorem splitN_length_le (n : Nat) (l : List Nat) :
    (splitN n l).length ≤ n := by
  cases n with
  | zero => simp [splitN]
  | succ m => simpa [splitN] using splitNCore_length l m

/-- C10: the section-name pass inside condition, run in the state condition
sets up (shnum equals the section count, shstrndx its predecessor, at least
one section), leaves the header untouched, keeps the section count, writes
nothing but sh_name fields, and leaves the null section at index 0 and the
string-table section at the last index wholly unchanged — in particular
their sh_name values. -/
theorem c10_name_pass_frame (elf : ELF64)
    (hnum : elf.ehdr.e_shnum = elf.sections.length)
    (hstr : elf.ehdr.e_shstrndx = elf.sections.length - 1)
    (_hlen : 0 < elf.sections.length) :
    (elf.set_section_names).ehdr = elf.ehdr ∧
    (elf.set_section_names).sections.length = elf.sections.length ∧
    (∀ j d, onlyNameChanged (elf.sections.getD j d)
        ((elf.set_section_names).sections.getD j d)) ∧
    (elf.set_section_names).sections.getD 0 dSect =
      elf.sections.getD 0 dSect ∧
    (elf.set_section_names).sections.getD (elf.sections.length - 1) dSect =
      elf.sections.getD (elf.sections.length - 1) dSect := by
  refine ⟨rfl, ?_, ?_, ?_, ?_⟩
  · exact nameLoop_length _ _ _ _ _
  · intro j d; exact nameLoop_onlyName _ _ _ _ _ _ _
  · exact nameLoop_getD_frame _ _ _ _ _ _ _ (Or.inl rfl)
  · apply nameLoop_getD_frame
    right; right; left
    simp only [Ehdr64.get_shnum, Ehdr64.get_shstrndx, hnum, hstr]
    have hb := splitN_length_le (elf.sections.length - 1)
      ((elf.sections.getD (elf.sections.length - 1)
        (Section64.new "" Shdr64.default)).bytesList)
    omega

/-- Concrete model for the C10 witness: a null section and a string-table
section, with the header fields condition would have set. -/
def elfC10 : ELF64 :=
  { ehdr := { Ehdr64.new with e_shnum := 2, e_shstrndx := 1 }
  , sections :=
      [Section64.new_null_section,
        { Section64.new "" Shdr64.default with bytes := some [0, 97, 0] }] }

/-- Witness for C10: on the concrete two-section model the string-table
section at the last index is unchanged by the name pass. -/
theorem c10_witness :
    (elfC10.set_section_names).sections.getD (elfC10.sections.length - 1)
        dSect =
      elfC10.sections.getD (elfC10.sections.length - 1) dSect :=
  (c10_name_pass_frame elfC10 rfl rfl (by decide)).2.2.2.2

/-- Modelled from the spec: the generic Section trait and its Contents
union used by parser/parse.rs are not under src/. A parsed section owns its
header, a resolved display name kept as its bytes, and the raw byte
contents the parser captures (the typed conversion is a later pass); a
fresh section from a header has empty contents and name. -/
structure ParsedSection where
  header : Shdr64
  name : List Nat
  contents : List Nat
deriving DecidableEq

/-- Modelled from the spec: Section::new from a decoded header. -/
def ParsedSection.new (shdr : Shdr64) : ParsedSection :=
  { header := shdr, name := [], contents := [] }

/-- The loop of read_elf_sections from parser/parse.rs, iterating the
remaining section count: deserialize the fixed-size header at its slot in
the section header table, and unless the type tag is NoBits slice
buf[offset .. offset + size] as the raw contents — a slice whose end
exceeds the buffer length is a Rust panic, not an error return. -/
def readElfSectionsGo (buf : List Nat) (sht_offset : Nat) :
    Nat → Nat → RustResult (List ParsedSection)
  | _, 0 => .ok []
  | sct_idx, k + 1 =>
    match Shdr64.deserialize buf (sht_offset + Shdr64.size * sct_idx) with
    | .panic => .panic
    | .error e => .error e
    | .ok shdr =>
      if shdr.get_type = SectionType.NoBits then
        match readElfSectionsGo buf sht_offset (sct_idx + 1) k with
        | .ok rest => .ok (ParsedSection.new shdr :: rest)
        | .error e => .error e
        | .panic => .panic
      else
        if buf.length < shdr.sh_offset + shdr.sh_size then .panic
        else
          match readElfSectionsGo buf sht_offset (sct_idx + 1) k with
          | .ok rest =>
            .ok ({ ParsedSection.new shdr with
                    contents := (buf.drop shdr.sh_offset).take shdr.sh_size }
                  :: rest)
          | .error e => .error e
          | .panic => .panic

/-- read_elf_sections from parser/parse.rs. -/
def read_elf_sections (section_number sht_offset : Nat) (buf : List Nat) :
    RustResult (List ParsedSection) :=
  readElfSectionsGo buf sht_offset 0 section_number

/-- Validity of a byte list under the UTF-8 well-formedness rules that
std str::from_utf8 checks: continuation ranges, no overlong encodings, no
surrogates, nothing above U+10FFFF. -/
def validUtf8 : List Nat → Bool
  | [] => true
  | b :: rest =>
    if b < 0x80 then validUtf8 rest
    else if b < 0xC2 then false
    else if b < 0xE0 then
      match rest with
      | c1 :: r => (0x80 ≤ c1 && c1 ≤ 0xBF) && validUtf8 r
      | [] => false
    else if b < 0xF0 then
      match rest with
      | c1 :: c2 :: r =>
        (max 0x80 (if b = 0xE0 then 0xA0 else 0x80) ≤ c1 &&
          c1 ≤ (if b = 0xED then 0x9F else 0xBF)) &&
        (0x80 ≤ c2 && c2 ≤ 0xBF) && validUtf8 r
      | _ => false
    else if b < 0xF5 then
      match rest with
      | c1 :: c2 :: c3 :: r =>
        ((if b = 0xF0 then 0x90 else 0x80) ≤ c1 &&
          c1 ≤ (if b = 0xF4 then 0x8F else 0xBF)) &&
        (0x80 ≤ c2 && c2 ≤ 0xBF) && (0x80 ≤ c3 && c3 ≤ 0xBF) && validUtf8 r
      | _ => false
    else false

/-- The loop of set_sections_name_shstrtab from parser/parse.rs, iterating
idx over the section count with a fuel argument: index 0 is skipped; for
every other index the section name index selects a NUL-terminated byte run
in the contents of the section at shstrndx, which str::from_utf8 must
accept — out-of-range indexing, an out-of-range name offset, and invalid
UTF-8 are Rust panics. -/
def setSectionsNameGo (shstrndx section_number : Nat) :
    Nat → Nat → List ParsedSection → RustResult (List ParsedSection)
  | _, 0, sections => .ok sections
  | idx, k + 1, sections =>
    if idx = 0 ∨ section_number ≤ idx then
      setSectionsNameGo shstrndx section_number (idx + 1) k sections
    else if sections.length ≤ idx then .panic
    else if sections.length ≤ shstrndx then .panic
    else
      let name_idx := (sections.getD idx (ParsedSection.new Shdr64.default)).header.sh_name
      let name_bytes := (sections.getD shstrndx (ParsedSection.new Shdr64.default)).contents
      if name_bytes.length < name_idx then .panic
      else
        let nb := (name_bytes.drop name_idx).takeWhile (fun byte => byte ≠ 0)
        if validUtf8 nb then
          setSectionsNameGo shstrndx section_number (idx + 1) k
            (sections.set idx
              { sections.getD idx (ParsedSection.new Shdr64.default) with
                  name := nb })
        else .panic

/-- set_sections_name_shstrtab from parser/parse.rs. -/
def set_sections_name_shstrtab (shstrndx section_number : Nat)
    (sections : List ParsedSection) : RustResult (List ParsedSection) :=
  setSectionsNameGo shstrndx section_number 0 section_number sections

theorem readGo_payload (buf : List Nat) (sht_offset : Nat) :
    ∀ (k sct_idx : Nat) (sections : List ParsedSection),
      readElfSectionsGo buf sht_offset sct_idx k = .ok sections →
      ∀ s ∈ sections,
        (s.header.get_type ≠ SectionType.NoBits →
          s.contents.length = s.header.sh_size) ∧
        (s.header.get_type = SectionType.NoBits → s.contents = []) := by
  intro k
  induction k with
  | zero =>
    intro sct_idx sections h s hs
    unfold readElfSectionsGo at h
    cases h
    cases hs
  | succ k ih =>
    intro sct_idx sections h s hs
    unfold readElfSectionsGo at h
    cases hdes : Shdr64.deserialize buf (sht_offset + Shdr64.size * sct_idx) with
    | panic => rw [hdes] at h; cases h
    | error e => rw [hdes] at h; cases h
    | ok shdr =>
      rw [hdes] at h
      dsimp only at h
      by_cases ht : shdr.get_type = SectionType.NoBits
      · rw [if_pos ht] at h
        cases hrec : readElfSectionsGo buf sht_offset (sct_idx + 1) k with
        | panic => rw [hrec] at h; cases h
        | error e => rw [hrec] at h; cases h
        | ok rest =>
          rw [hrec] at h
          cases h
          rcases List.mem_cons.mp hs with hhead | htail
          · subst hhead
            exact ⟨fun hne => absurd ht hne, fun _ => rfl⟩
          · exact ih _ _ hrec s htail
      · rw [if_neg ht] at h
        by_cases hoob : buf.length < shdr.sh_offset + shdr.sh_size
        · rw [if_pos hoob] at h; cases h
        · rw [if_neg hoob] at h
          cases hrec : readElfSectionsGo buf sht_offset (sct_idx + 1) k with
          | panic => rw [hrec] at h; cases h
          | error e => rw [hrec] at h; cases h
          | ok rest =>
            rw [hrec] at h
            cases h
            rcases List.mem_cons.mp hs with hhead | htail
            · subst hhead
              refine ⟨fun _ => ?_, fun heq => absurd heq ht⟩
              simp only [ParsedSection.new, List.length_take, List.length_drop]
              omega
            · exact ih _ _ hrec s htail

/-- C6: every section of a successful read_elf_sections parse whose type
tag is not NoBits stores a payload whose byte length equals the declared
sh_size, and a NoBits section stores no payload bytes at all. -/
theorem c6_section_payload_length (section_number sht_offset : Nat)
    (buf : List Nat) (sections : List ParsedSection)
    (h : read_elf_sections section_number sht_offset buf = .ok sections) :
    ∀ s ∈ sections,
      (s.header.get_type ≠ SectionType.NoBits →
        s.contents.length = s.header.sh_size) ∧
      (s.header.get_type = SectionType.NoBits → s.contents = []) :=
  readGo_payload buf sht_offset section_number 0 sections h

/-- A 64-byte all-zero buffer: one null section header. -/
def zeros64 : List Nat := List.replicate 64 0

/-- Witness for C6: parsing the all-zero buffer as one section succeeds
and the resulting section (type Null, size 0) satisfies both conjuncts. -/
theorem c6_witness :
    ((ParsedSection.new Shdr64.default).header.get_type ≠
        SectionType.NoBits →
      (ParsedSection.new Shdr64.default).contents.length =
        (ParsedSection.new Shdr64.default).header.sh_size) ∧
    ((ParsedSection.new Shdr64.default).header.get_type =
        SectionType.NoBits →
      (ParsedSection.new Shdr64.default).contents = []) :=
  c6_section_payload_length 1 0 zeros64 [ParsedSection.new Shdr64.default]
    (by decide) (ParsedSection.new Shdr64.default) (by simp)

/-- A 64-byte buffer holding one section header whose declared extent
(offset 0, size 100) exceeds the buffer. -/
def bufC4 : List Nat :=
  Shdr64.to_le_bytes { Shdr64.default with sh_type := 1, sh_size := 100 }

/-- Counterexample for C4: on a buffer whose single section header
declares an extent past the end of the buffer, read_elf_sections panics
(Rust out-of-bounds slice) instead of returning the tagged error value the
claim promises. -/
theorem c4_counterexample :
    read_elf_sections 1 0 bufC4 = RustResult.panic := by
  decide

theorem readGo_error_decode (buf : List Nat) (sht_offset : Nat) :
    ∀ (k sct_idx : Nat) (e : ParseError),
      readElfSectionsGo buf sht_offset sct_idx k = .error e →
      e = ParseError.decodeFailed := by
  intro k
  induction k with
  | zero =>
    intro sct_idx e h
    unfold readElfSectionsGo at h
    cases h
  | succ k ih =>
    intro sct_idx e h
    unfold readElfSectionsGo at h
    cases hdes : Shdr64.deserialize buf (sht_offset + Shdr64.size * sct_idx) with
    | panic => rw [hdes] at h; cases h
    | error e2 =>
      rw [hdes] at h
      cases h
      unfold Shdr64.deserialize at hdes
      split at hdes
      · cases hdes
      · split at hdes
        · injection hdes with he
          exact he.symm
        · cases hdes
    | ok shdr =>
      rw [hdes] at h
      dsimp only at h
      by_cases ht : shdr.get_type = SectionType.NoBits
      · rw [if_pos ht] at h
        cases hrec : readElfSectionsGo buf sht_offset (sct_idx + 1) k with
        | panic => rw [hrec] at h; cases h
        | error e2 => rw [hrec] at h; cases h; exact ih _ _ hrec
        | ok rest => rw [hrec] at h; cases h
      · rw [if_neg ht] at h
        by_cases hoob : buf.length < shdr.sh_offset + shdr.sh_size
        · rw [if_pos hoob] at h; cases h
        · rw [if_neg hoob] at h
          cases hrec : readElfSectionsGo buf sht_offset (sct_idx + 1) k with
          | panic => rw [hrec] at h; cases h
          | error e2 => rw [hrec] at h; cases h; exact ih _ _ hrec
          | ok rest => rw [hrec] at h; cases h

/-- A section list whose string-table section (index 0) holds a byte that
no UTF-8 name may contain. -/
def sectionsBadUtf8 : List ParsedSection :=
  [{ header := Shdr64.default, name := [], contents := [255, 0] },
    ParsedSection.new Shdr64.default]

/-- C4 (amended): only the fixed-size section-header decode failure is
returned as a tagged error value; an out-of-bounds section slice and
invalid UTF-8 in a resolved section name abort with a panic rather than
being surfaced as error values. -/
theorem c4_panics_not_tagged_errors :
    (∀ (section_number sht_offset : Nat) (buf : List Nat) (e : ParseError),
      read_elf_sections section_number sht_offset buf = .error e →
      e = ParseError.decodeFailed) ∧
    read_elf_sections 1 0 bufC4 = RustResult.panic ∧
    set_sections_name_shstrtab 0 2 sectionsBadUtf8 = RustResult.panic := by
  refine ⟨?_, by decide, by decide⟩
  intro section_number sht_offset buf e h
  exact readGo_error_decode buf sht_offset section_number 0 e h

/-- Witness for C4: a too-short buffer makes read_elf_sections return the
decode-failure error, and the amended theorem identifies its tag. -/
theorem c4_witness : ParseError.decodeFailed = ParseError.decodeFailed :=
  c4_panics_not_tagged_errors.1 1 0 [] ParseError.decodeFailed (by decide)

/-- build_string_table from section/util.rs, on names given as their byte
lists: a leading NUL, every name followed by a NUL in input order, then
the alignment loop pushes 4 - (length mod 4) further NULs (a full word of
four when the length is already aligned). -/
def build_string_table (strings : List (List Nat)) : List Nat :=
  let string_table : List Nat := [0]
  let string_table := strings.foldl (fun st s => st ++ s ++ [0]) string_table
  let md := string_table.length % 4
  string_table ++ List.replicate (4 - md) 0

/-- Splitting a byte buffer at every NUL boundary, as the claim for C8
describes the re-splitting of the table. -/
def splitOnNul : List Nat → List (List Nat)
  | [] => [[]]
  | x :: xs =>
    if x = 0 then [] :: splitOnNul xs
    else
      match splitOnNul xs with
      | [] => [[x]]
      | p :: ps => (x :: p) :: ps

/-- Counterexample for C8: for the single name "a" the table is
0x00 0x61 0x00 0x00 (one alignment NUL); splitting on NUL boundaries and
skipping the empty leading element yields the name followed by two empty
padding elements, not the original one-element name list. -/
theorem c8_counterexample :
    (splitOnNul (build_string_table [[97]])).drop 1 ≠ [[97]] := by
  decide

/-- Splitting a byte list that starts with a NUL yields an empty leading
element. -/
theorem splitOnNul_cons_zero (y : List Nat) :
    splitOnNul (0 :: y) = [] :: splitOnNul y := by
  simp [splitOnNul]

/-- Splitting distributes over a NUL-free name followed by a NUL
terminator. -/
theorem splitOnNul_nulfree_name (n : List Nat) (hn : 0 ∉ n) :
    ∀ rest : List Nat, splitOnNul (n ++ 0 :: rest) = n :: splitOnNul rest := by
  induction n with
  | nil => intro rest; simp [splitOnNul]
  | cons x xs ih =>
    intro rest
    have hx : x ≠ 0 := fun hx0 => hn (hx0 ▸ List.mem_cons_self x xs)
    have hxs : 0 ∉ xs := fun hmem => hn (List.mem_cons_of_mem x hmem)
    simp only [List.cons_append, splitOnNul, if_neg hx]
    rw [List.append_eq, ih hxs rest]

/-- Splitting the concatenation of NUL-terminated NUL-free names followed
by a tail yields the names followed by the split of the tail. -/
theorem splitOnNul_flatten (names : List (List Nat))
    (h : ∀ n ∈ names, 0 ∉ n) :
    ∀ t : List Nat,
      splitOnNul ((names.map (fun s => s ++ [0])).flatten ++ t) =
        names ++ splitOnNul t := by
  induction names with
  | nil => intro t; simp
  | cons n ns ih =>
    intro t
    have hn : 0 ∉ n := h n (List.mem_cons_self n ns)
    have hns : ∀ m ∈ ns, 0 ∉ m := fun m hm => h m (List.mem_cons_of_mem n hm)
    simp only [List.map_cons, List.flatten_cons, List.append_assoc,
      List.cons_append, List.nil_append]
    rw [splitOnNul_nulfree_name n hn, ih hns t]

/-- C8 (amended): the table starts with a NUL byte, its total length is a
multiple of 4, and — provided no name contains a NUL byte — splitting on
NUL boundaries, skipping the empty leading element, and reading as many
elements as there are names recovers the original name list; the elements
beyond that point are the empty remnants of the alignment padding. -/
theorem c8_string_table_properties (names : List (List Nat)) :
    (build_string_table names).head? = some 0 ∧
    (build_string_table names).length % 4 = 0 ∧
    ((∀ n ∈ names, 0 ∉ n) →
      ((splitOnNul (build_string_table names)).drop 1).take names.length =
        names) := by
  have hfn : (fun (st s : List Nat) => st ++ s ++ [0]) =
      (fun (acc x : List Nat) => acc ++ (x ++ [0])) := by
    funext st s
    rw [List.append_assoc]
  have hfold := foldl_append_flatten (fun s => s ++ [0]) names [0]
  refine ⟨?_, ?_, ?_⟩
  · simp only [build_string_table]
    rw [hfn, hfold]
    simp
  · simp only [build_string_table]
    rw [hfn, hfold]
    simp only [List.length_append, List.length_replicate, List.length_cons,
      List.length_nil]
    omega
  · intro hnul
    simp only [build_string_table]
    rw [hfn, hfold]
    have hshape :
        ([0] ++ (names.map (fun s => s ++ [0])).flatten) ++
            List.replicate
              (4 - ([0] ++ (names.map (fun s => s ++ [0])).flatten).length % 4)
              0 =
          0 :: ((names.map (fun s => s ++ [0])).flatten ++
            List.replicate
              (4 - ([0] ++ (names.map (fun s => s ++ [0])).flatten).length % 4)
              0) := by
      simp
    rw [hshape, splitOnNul_cons_zero, splitOnNul_flatten names hnul]
    simp [List.take_left]

/-- Witness for C8: the recovery conjunct holds for the concrete NUL-free
name list consisting of "a" and "bc". -/
theorem c8_witness :
    ((splitOnNul (build_string_table [[97], [98, 99]])).drop 1).take 2 =
      [[97], [98, 99]] :=
  (c8_string_table_properties [[97], [98, 99]]).2.2 (by decide)
